import Mathlib

/-!
Verification of the kousen core document-model engine
(src/kousen/core/abstractmodel.py and src/kousen/core/proxymodel.py)
against its natural-language specification.

The Python classes are shallowly embedded: the sparse role/column cell
store (`AbstractData`) becomes an insertion-ordered association list of
association lists (matching Python dict iteration/update order), entities
become their stores, the tree structure becomes explicit child lists with
identifiers, Qt signals become event lists, and Python exceptions become
`Except PyError`.  Cell values are modelled by `PyVal` (the Python values
the engine actually stores: None, int, str) together with Python
truthiness.
-/

namespace Kousen

/-- Model of a Python value as stored in the cell tables: None, an int, or a
string.  These are the value shapes the core engine manipulates. -/
inductive PyVal where
  | none
  | int (n : Int)
  | str (s : String)
  deriving DecidableEq

/-- Python truthiness of a modelled value (`None`, `0` and `""` are falsy). -/
def pyTruthy : PyVal → Bool
  | PyVal.none => false
  | PyVal.int n => n != 0
  | PyVal.str s => s != ""

/-- Python exceptions that the modelled code can raise. -/
inductive PyError where
  | attributeError
  | valueError
  | indexError
  | typeError
  deriving DecidableEq

/-- Qt ItemDataRole constants used by the source. -/
def DisplayRole : Int := 0

/-- Qt EditRole. -/
def EditRole : Int := 2

/-- Qt ToolTipRole. -/
def ToolTipRole : Int := 3

/-- Qt UserRole. -/
def UserRole : Int := 256

/-- AbstractData.FlagRole = int(QtCore.Qt.UserRole) + 1. -/
def FlagRole : Int := UserRole + 1

/-- Lookup in an insertion-ordered association list (Python `dict.get`). -/
def alGet (k : Int) : List (Int × α) → Option α
  | [] => Option.none
  | (k2, v) :: rest => if k = k2 then some v else alGet k rest

/-- Insertion-ordered association-list update (Python dict item assignment):
an existing key is overwritten in place, a new key is appended at the end,
exactly as Python dicts preserve insertion order. -/
def alSet (k : Int) (v : α) : List (Int × α) → List (Int × α)
  | [] => [(k, v)]
  | (k2, v2) :: rest => if k = k2 then (k, v) :: rest else (k2, v2) :: alSet k v rest

/-- The internal storage of `AbstractData`: a dict from role to a dict from
column to value (`self._internal`). -/
abbrev Store := List (Int × List (Int × PyVal))

/-- AbstractData.get(role, column, default): `columndata =
self._internal.get(role, None); return columndata.get(column, default) if
columndata else default`.  Note the Python truthiness test: a missing role
and a role bound to an empty dict both yield the default.  The function is
total: reading never raises. -/
def AbstractData.get (s : Store) (role column : Int) (dflt : PyVal) : PyVal :=
  match alGet role s with
  | Option.none => dflt
  | some columndata =>
      if columndata.isEmpty then dflt else (alGet column columndata).getD dflt

/-- AbstractData.set(role, column, value): `columndata =
self._internal.setdefault(role, {}); columndata[column] = value`. -/
def AbstractData.set : Store → Int → Int → PyVal → Store
  | [], role, column, v => [(role, [(column, v)])]
  | (r, b) :: rest, role, column, v =>
      if role = r then (r, alSet column v b) :: rest
      else (r, b) :: AbstractData.set rest role column v

/-- The value actually stored for (role, column), if any (used to state
theorems; `Option.none` means the key pair was never written). -/
def AbstractData.find (s : Store) (role column : Int) : Option PyVal :=
  match alGet role s with
  | Option.none => Option.none
  | some b => alGet column b

/-- AbstractDataItem.data(id, role): `self._staticdata[role, id]`, i.e.
`get(role, id, default=None)`. -/
def AbstractDataItem.data (s : Store) (id role : Int) : PyVal :=
  AbstractData.get s role id PyVal.none

/-- AbstractDataItem.setData(id, value, role): fires the dataChanging hook,
writes the cell, fires the dataChanged hook and returns True.  Only the
store effect is modelled here; the hooks carry no data into the store. -/
def AbstractDataItem.setData (s : Store) (id : Int) (v : PyVal) (role : Int) : Store :=
  AbstractData.set s role id v

/- ### Association-list lemmas -/

theorem alSet_alSet (k : Int) (v1 v2 : α) (l : List (Int × α)) :
    alSet k v2 (alSet k v1 l) = alSet k v2 l := by
  induction l with
  | nil => simp [alSet]
  | cons p rest ih =>
      obtain ⟨k2, w⟩ := p
      by_cases h : k = k2
      · simp [alSet, h]
      · simp [alSet, h, ih]

theorem alSet_of_alGet_eq (k : Int) (v : α) (l : List (Int × α))
    (h : alGet k l = some v) : alSet k v l = l := by
  induction l with
  | nil => simp [alGet] at h
  | cons p rest ih =>
      obtain ⟨k2, w⟩ := p
      by_cases hk : k = k2
      · subst hk
        simp [alGet] at h
        simp [alSet, h]
      · simp [alGet, hk] at h
        simp [alSet, hk, ih h]

theorem alGet_alSet_self (k : Int) (v : α) (l : List (Int × α)) :
    alGet k (alSet k v l) = some v := by
  induction l with
  | nil => simp [alSet, alGet]
  | cons p rest ih =>
      obtain ⟨k2, w⟩ := p
      by_cases h : k = k2
      · simp [alSet, h, alGet]
      · simp [alSet, h, alGet, ih]

theorem alGet_alSet_ne (k k2 : Int) (v : α) (l : List (Int × α)) (h : k2 ≠ k) :
    alGet k2 (alSet k v l) = alGet k2 l := by
  induction l with
  | nil => simp [alSet, alGet, h]
  | cons p rest ih =>
      obtain ⟨k3, w⟩ := p
      by_cases hk : k = k3
      · subst hk
        simp [alSet, alGet, h, ih]
      · by_cases hk2 : k2 = k3
        · simp [alSet, hk, alGet, hk2]
        · simp [alSet, hk, alGet, hk2, ih]

/- ### Store-level lemmas -/

theorem set_set (s : Store) (role column : Int) (v1 v2 : PyVal) :
    AbstractData.set (AbstractData.set s role column v1) role column v2 =
      AbstractData.set s role column v2 := by
  induction s with
  | nil => simp [AbstractData.set, alSet, alSet_alSet]
  | cons p rest ih =>
      obtain ⟨r, b⟩ := p
      by_cases h : role = r
      · simp [AbstractData.set, h, alSet_alSet]
      · simp [AbstractData.set, h, ih]

theorem find_set_self (s : Store) (role column : Int) (v : PyVal) :
    AbstractData.find (AbstractData.set s role column v) role column = some v := by
  induction s with
  | nil => simp [AbstractData.set, AbstractData.find, alGet, alSet]
  | cons p rest ih =>
      obtain ⟨r, b⟩ := p
      by_cases hr : role = r
      · subst hr
        simp [AbstractData.set, AbstractData.find, alGet, alGet_alSet_self]
      · simp only [AbstractData.set, hr, if_false, AbstractData.find, alGet]
        change AbstractData.find (AbstractData.set rest role column v) role column = some v
        exact ih

theorem get_of_find_some (s : Store) (role column : Int) (v d : PyVal)
    (h : AbstractData.find s role column = some v) :
    AbstractData.get s role column d = v := by
  unfold AbstractData.find at h
  unfold AbstractData.get
  cases hg : alGet role s with
  | none => rw [hg] at h; exact absurd h (by simp)
  | some b =>
      rw [hg] at h
      change alGet column b = some v at h
      have hb : b ≠ [] := by
        intro he
        rw [he] at h
        simp [alGet] at h
      simp [List.isEmpty_iff, hb, h]

theorem set_of_find_eq (s : Store) (role column : Int) (v : PyVal)
    (h : AbstractData.find s role column = some v) :
    AbstractData.set s role column v = s := by
  induction s with
  | nil => simp [AbstractData.find, alGet] at h
  | cons p rest ih =>
      obtain ⟨r, b⟩ := p
      by_cases hr : role = r
      · subst hr
        simp [AbstractData.find, alGet] at h
        simp [AbstractData.set, alSet_of_alGet_eq _ _ _ h]
      · simp [AbstractData.find, alGet, hr] at h
        simp [AbstractData.set, hr]
        exact ih h

/- ### The SetCell command (AbstractSetDataCommand) -/

/-- AbstractSetDataCommand: the captured entity reference (`self._item`,
an id here), `self._column`, `self._role`, `self._newvalue` and
`self._oldvalue` of one cell edit. -/
structure AbstractSetDataCommand where
  item : Nat
  column : Int
  role : Int
  newvalue : PyVal
  oldvalue : PyVal
  deriving DecidableEq

/-- The mutable state an AbstractSetDataCommand acts on: the target
entity's cell store and the command's `self._result` stack. -/
abbrev CmdState := Store × List Bool

/-- AbstractSetDataCommand.redo: `self._item.setData(self._column,
self._newvalue, self._role)` (which returns True), then
`self._result.append(result)`. -/
def AbstractSetDataCommand.redo (c : AbstractSetDataCommand) : CmdState → CmdState
  | (s, res) => (AbstractDataItem.setData s c.column c.newvalue c.role, res ++ [true])

/-- AbstractSetDataCommand.undo: `self._item.setData(self._column,
self._oldvalue, self._role)` then `self._result.pop()` (the claim only
exercises undo after a redo, when the result stack is nonempty). -/
def AbstractSetDataCommand.undo (c : AbstractSetDataCommand) : CmdState → CmdState
  | (s, res) => (AbstractDataItem.setData s c.column c.oldvalue c.role, res.dropLast)

/-- C2: for every SetCell command over (entity, column, aspect, old, new)
with old ≠ new, provided the entity's store actually holds `old` at that
(aspect, column) key (which is how the mediators construct the command):
redo stores the new value in the entity's cell (the store then holds
`newvalue` at the key and the entity's data read returns it), undo
restores the exact pre-redo state, and a second redo reproduces the state
of the first redo. -/
theorem setCell_undo_redo_round_trip (c : AbstractSetDataCommand) (s : Store)
    (res : List Bool) (hne : c.oldvalue ≠ c.newvalue)
    (hold : AbstractData.find s c.role c.column = some c.oldvalue) :
    AbstractData.find (c.redo (s, res)).1 c.role c.column = some c.newvalue
    ∧ AbstractDataItem.data (c.redo (s, res)).1 c.column c.role = c.newvalue
    ∧ c.undo (c.redo (s, res)) = (s, res)
    ∧ c.redo (c.undo (c.redo (s, res))) = c.redo (s, res) := by
  refine ⟨?_, ?_, ?_, ?_⟩
  · exact find_set_self s c.role c.column c.newvalue
  · exact get_of_find_some _ c.role c.column c.newvalue PyVal.none
      (find_set_self s c.role c.column c.newvalue)
  · simp only [AbstractSetDataCommand.redo, AbstractSetDataCommand.undo,
      AbstractDataItem.setData]
    rw [set_set, set_of_find_eq s c.role c.column c.oldvalue hold,
      List.dropLast_concat]
  · simp only [AbstractSetDataCommand.redo, AbstractSetDataCommand.undo,
      AbstractDataItem.setData]
    rw [set_set, set_set, List.dropLast_concat]

/-- Witness for C2 at a concrete command and store. -/
theorem setCell_undo_redo_round_trip_witness :
    ((PyVal.str "foo") ≠ (PyVal.str "bar"))
    ∧ (AbstractDataItem.data
        ((AbstractSetDataCommand.mk 1 0 2 (PyVal.str "bar") (PyVal.str "foo")).redo
          ([(2, [(0, PyVal.str "foo")])], [])).1 0 2 = PyVal.str "bar")
    ∧ ((AbstractSetDataCommand.mk 1 0 2 (PyVal.str "bar") (PyVal.str "foo")).undo
        ((AbstractSetDataCommand.mk 1 0 2 (PyVal.str "bar") (PyVal.str "foo")).redo
          ([(2, [(0, PyVal.str "foo")])], [])) = (([(2, [(0, PyVal.str "foo")])] : Store), [])) := by
  refine ⟨by decide, ?_, ?_⟩
  · exact (setCell_undo_redo_round_trip
      (AbstractSetDataCommand.mk 1 0 2 (PyVal.str "bar") (PyVal.str "foo"))
      [(2, [(0, PyVal.str "foo")])] [] (by decide) (by decide)).2.1
  · exact (setCell_undo_redo_round_trip
      (AbstractSetDataCommand.mk 1 0 2 (PyVal.str "bar") (PyVal.str "foo"))
      [(2, [(0, PyVal.str "foo")])] [] (by decide) (by decide)).2.2.1

/-- C9: AbstractData.get returns the stored value when one was set for the
(aspect, column) pair and the caller-supplied default otherwise; the read
is total (never raises), so on a fresh entity every never-written
(column, aspect) read through AbstractDataItem.data yields None, the
default that `data` passes. -/
theorem get_stored_or_default (s : Store) (role column : Int) (dflt : PyVal) :
    (∀ v, AbstractData.find s role column = some v →
        AbstractData.get s role column dflt = v)
    ∧ (AbstractData.find s role column = Option.none →
        AbstractData.get s role column dflt = dflt)
    ∧ AbstractData.get ([] : Store) role column dflt = dflt
    ∧ AbstractDataItem.data ([] : Store) column role = PyVal.none := by
  refine ⟨?_, ?_, rfl, rfl⟩
  · intro v hv
    unfold AbstractData.find at hv
    unfold AbstractData.get
    cases h : alGet role s with
    | none => rw [h] at hv; exact absurd hv (by simp)
    | some b =>
        rw [h] at hv
        change alGet column b = some v at hv
        have hb : b ≠ [] := by
          intro he
          rw [he] at hv
          simp [alGet] at hv
        simp [List.isEmpty_iff, hb, hv]
  · intro hv
    unfold AbstractData.find at hv
    unfold AbstractData.get
    cases h : alGet role s with
    | none => simp
    | some b =>
        rw [h] at hv
        change alGet column b = Option.none at hv
        by_cases hb : b.isEmpty
        · simp [hb]
        · simp [hb, hv]

/-- Witness for C9 at a concrete store, role, column and default. -/
theorem get_stored_or_default_witness :
    (AbstractData.find [(0, [(1, PyVal.int 7)])] 0 1 = some (PyVal.int 7) →
        AbstractData.get [(0, [(1, PyVal.int 7)])] 0 1 (PyVal.str "d") = PyVal.int 7)
    ∧ (AbstractData.find [(0, [(1, PyVal.int 7)])] 0 2 = Option.none →
        AbstractData.get [(0, [(1, PyVal.int 7)])] 0 2 (PyVal.str "d") = PyVal.str "d") := by
  refine ⟨fun h => (get_stored_or_default [(0, [(1, PyVal.int 7)])] 0 1 (PyVal.str "d")).1 _ h, ?_⟩
  exact fun h => (get_stored_or_default [(0, [(1, PyVal.int 7)])] 0 2 (PyVal.str "d")).2.1 h

/- ### Tree structure: AbstractDataTreeItem children and the tree mediator's
insert/remove plumbing.  Entities are identified by numeric ids; the Qt
signals and QObject parent pointer become explicit event lists and an
id-indexed back-reference map. -/

/-- Notifications and side effects emitted while mutating the tree:
the childAdded/childRemoved signals of AbstractDataTreeItem, the model's
begin/end structural brackets, and signal (dis)connection. -/
inductive TreeEvent where
  | childAdded (id : Nat)
  | childRemoved (id : Nat)
  | connected (id : Nat)
  | disconnected (id : Nat)
  | beginRemoveRows (first last : Nat)
  | endRemoveRows
  | beginInsertRows (first last : Nat)
  | endInsertRows
  deriving DecidableEq

/-- The observable state around one parent item: its `_children` id list,
the QObject parent back-reference of every id (`item.parent()`), and the
events emitted so far. -/
structure ItemState where
  children : List Nat
  qparent : Nat → Option Nat
  events : List TreeEvent

/-- Python `list.insert(position, item)` for a non-negative position:
shifts the tail, clamping positions past the end to an append. -/
def pyInsert (position : Nat) (c : α) : List α → List α
  | [] => [c]
  | x :: xs =>
      match position with
      | 0 => c :: x :: xs
      | n + 1 => x :: pyInsert n c xs

/-- AbstractDataTreeItem.appendChild(item): `self._children.append(item);
self._childAdded(item)`.  It does not touch the child's parent
back-reference. -/
def AbstractDataTreeItem.appendChild (c : Nat) (s : ItemState) : ItemState :=
  { s with children := s.children ++ [c],
           events := s.events ++ [TreeEvent.childAdded c] }

/-- AbstractDataTreeItem.insertChild(position, item):
`self._children.insert(position, item); self._childAdded(item)`.  It does
not touch the child's parent back-reference. -/
def AbstractDataTreeItem.insertChild (position : Nat) (c : Nat) (s : ItemState) : ItemState :=
  { s with children := pyInsert position c s.children,
           events := s.events ++ [TreeEvent.childAdded c] }

/-- QObject.setParent on the child id. -/
def setParentRef (c : Nat) (p : Option Nat) (s : ItemState) : ItemState :=
  { s with qparent := fun x => if x = c then p else s.qparent x }

/-- AbstractDataTreeModel._itemConnect(item). -/
def connectItem (c : Nat) (s : ItemState) : ItemState :=
  { s with events := s.events ++ [TreeEvent.connected c] }

/-- AbstractDataTreeModel._itemDisconnect(item). -/
def disconnectItem (c : Nat) (s : ItemState) : ItemState :=
  { s with events := s.events ++ [TreeEvent.disconnected c] }

/-- AbstractDataTreeModel._itemInsert(parent, item): `parent.appendChild(item);
item.setParent(parent); self._itemConnect(item)`. -/
def AbstractDataTreeModel.itemInsert (p c : Nat) (s : ItemState) : ItemState :=
  connectItem c (setParentRef c (some p) (AbstractDataTreeItem.appendChild c s))

/-- AbstractDataTreeModel._itemInsertPosition(parent, item, position):
`parent.insertChild(position, item); item.setParent(parent);
self._itemConnect(item)`. -/
def AbstractDataTreeModel.itemInsertPosition (p c : Nat) (position : Nat) (s : ItemState) : ItemState :=
  connectItem c (setParentRef c (some p) (AbstractDataTreeItem.insertChild position c s))

/-- Position of the first occurrence of `x` (Python `list.index`, which
raises ValueError when absent — modelled by `Option.none`). -/
def listIndex (x : Nat) : List Nat → Option Nat
  | [] => Option.none
  | y :: ys => if y = x then some 0 else (listIndex x ys).map (· + 1)

/-- AbstractDataTreeItem.childPosition(child): `self._children.index(child)`;
raises ValueError when the child is not in the list. -/
def AbstractDataTreeItem.childPosition (child : Nat) (s : ItemState) : Except PyError Nat :=
  match listIndex child s.children with
  | Option.none => Except.error PyError.valueError
  | some i => Except.ok i

/-- AbstractDataTreeItem.removePosition(position): `child =
self._children.pop(position); self._childRemoved(child); return child`;
pop raises IndexError when the position is out of range. -/
def AbstractDataTreeItem.removePosition (position : Nat) (s : ItemState) :
    Except PyError (Nat × ItemState) :=
  if h : position < s.children.length then
    Except.ok (s.children.get ⟨position, h⟩,
      { s with children := s.children.eraseIdx position,
               events := s.events ++ [TreeEvent.childRemoved (s.children.get ⟨position, h⟩)] })
  else Except.error PyError.indexError

/-- AbstractDataTreeItem.removeChild(item):
`return self.removePosition(self.childPosition(item))`; the childPosition
lookup raises ValueError when the item is absent. -/
def AbstractDataTreeItem.removeChild (child : Nat) (s : ItemState) :
    Except PyError (Nat × ItemState) :=
  match AbstractDataTreeItem.childPosition child s with
  | Except.error e => Except.error e
  | Except.ok i => AbstractDataTreeItem.removePosition i s

/-- AbstractDataTreeModel._itemRemove(parent, item): `try:
parent.removeChild(item); item.setParent(None); self._itemDisconnect(item)
except ValueError: pass` — the ValueError raised for an absent child is
swallowed and the state is returned unchanged. -/
def AbstractDataTreeModel.itemRemove (child : Nat) (s : ItemState) : Except PyError ItemState :=
  match AbstractDataTreeItem.removeChild child s with
  | Except.error PyError.valueError => Except.ok s
  | Except.error e => Except.error e
  | Except.ok (_, s2) => Except.ok (disconnectItem child (setParentRef child Option.none s2))

/-- A concrete parent state used by counterexamples: one child (id 5), no
parent back-references, no events yet. -/
def sampleParentState : ItemState :=
  { children := [5], qparent := fun _ => Option.none, events := [] }

/-- C4 counterexample: appendChild emits the childAdded hook but does not
set the child's parent back-reference, so immediately after
`p.appendChild(c)` the child's parent is still unset rather than `p`
(here parent id 1 appends child id 2, whose back-reference stays None). -/
theorem appendChild_does_not_set_parent :
    (AbstractDataTreeItem.appendChild 2 sampleParentState).qparent 2 ≠ some 1
    ∧ (AbstractDataTreeItem.appendChild 2 sampleParentState).qparent 2 = Option.none
    ∧ (AbstractDataTreeItem.appendChild 2 sampleParentState).events
        = [TreeEvent.childAdded 2] := by
  exact ⟨by simp [AbstractDataTreeItem.appendChild, sampleParentState], rfl, rfl⟩

/-- C4 amended: appendChild and insertChild append/insert the child and
emit the "child added" hook but leave the parent back-reference unchanged;
the back-reference is established by the tree mediator's _itemInsert /
_itemInsertPosition, which follow the child-list insertion with
item.setParent(parent), so immediately after those calls the child's
parent is the parent item. -/
theorem appendChild_hook_and_mediator_sets_parent (p c : Nat) (position : Nat) (s : ItemState) :
    (AbstractDataTreeItem.appendChild c s).qparent = s.qparent
    ∧ (AbstractDataTreeItem.appendChild c s).children = s.children ++ [c]
    ∧ (AbstractDataTreeItem.appendChild c s).events = s.events ++ [TreeEvent.childAdded c]
    ∧ (AbstractDataTreeItem.insertChild position c s).qparent = s.qparent
    ∧ (AbstractDataTreeItem.insertChild position c s).children = pyInsert position c s.children
    ∧ (AbstractDataTreeItem.insertChild position c s).events = s.events ++ [TreeEvent.childAdded c]
    ∧ (AbstractDataTreeModel.itemInsert p c s).qparent c = some p
    ∧ (AbstractDataTreeModel.itemInsert p c s).children = s.children ++ [c]
    ∧ (AbstractDataTreeModel.itemInsert p c s).events
        = s.events ++ [TreeEvent.childAdded c, TreeEvent.connected c]
    ∧ (AbstractDataTreeModel.itemInsertPosition p c position s).qparent c = some p
    ∧ (AbstractDataTreeModel.itemInsertPosition p c position s).children
        = pyInsert position c s.children
    ∧ (AbstractDataTreeModel.itemInsertPosition p c position s).events
        = s.events ++ [TreeEvent.childAdded c, TreeEvent.connected c] := by
  refine ⟨rfl, rfl, rfl, rfl, rfl, rfl, ?_, rfl, ?_, ?_, rfl, ?_⟩
  · simp [AbstractDataTreeModel.itemInsert, connectItem, setParentRef]
  · simp [AbstractDataTreeModel.itemInsert, connectItem, setParentRef,
      AbstractDataTreeItem.appendChild]
  · simp [AbstractDataTreeModel.itemInsertPosition, connectItem, setParentRef]
  · simp [AbstractDataTreeModel.itemInsertPosition, connectItem, setParentRef,
      AbstractDataTreeItem.insertChild]

/-- C5 counterexample: removing, through the tree mediator, the entity id 7
from a parent whose child sequence is [5] is a silent no-op — _itemRemove
catches the ValueError and returns the state unchanged — not a hard
failure. -/
theorem itemRemove_absent_child_is_silent_noop :
    AbstractDataTreeModel.itemRemove 7 sampleParentState = Except.ok sampleParentState := by
  rfl

/-- C5 amended: attempting to remove, through the tree mediator, an entity
absent from its claimed parent's child sequence is a silent no-op (the
ValueError raised by childPosition is caught and discarded, leaving the
state unchanged); only the entity-level removeChild surfaces the
ValueError. -/
theorem itemRemove_absent_child (child : Nat) (s : ItemState)
    (habs : listIndex child s.children = Option.none) :
    AbstractDataTreeModel.itemRemove child s = Except.ok s
    ∧ AbstractDataTreeItem.removeChild child s = Except.error PyError.valueError := by
  have hcp : AbstractDataTreeItem.childPosition child s = Except.error PyError.valueError := by
    simp [AbstractDataTreeItem.childPosition, habs]
  have hrc : AbstractDataTreeItem.removeChild child s = Except.error PyError.valueError := by
    simp [AbstractDataTreeItem.removeChild, hcp]
  exact ⟨by simp [AbstractDataTreeModel.itemRemove, hrc], hrc⟩

/-- Witness for C5 amended at the concrete parent state. -/
theorem itemRemove_absent_child_witness :
    listIndex 9 sampleParentState.children = Option.none
    ∧ AbstractDataTreeModel.itemRemove 9 sampleParentState = Except.ok sampleParentState := by
  refine ⟨rfl, ?_⟩
  exact (itemRemove_absent_child 9 sampleParentState rfl).1

/- ### RemoveItemCommand (tree model remove run) -/

/-- The descending iteration order `sorted(range(a, b), reverse=True)`. -/
def revRange (a b : Nat) : List Nat := (List.range' a (b - a)).reverse

/-- AbstractDataTreeModel._itemRemovePosition(parent, position): `try: item
= parent.removePosition(position); item.setParent(None);
self._itemDisconnect(item) except IndexError: return None` — an
out-of-range pop is caught and leaves the state unchanged. -/
def AbstractDataTreeModel.itemRemovePosition (position : Nat) (s : ItemState) :
    Option Nat × ItemState :=
  match AbstractDataTreeItem.removePosition position s with
  | Except.error _ => (Option.none, s)
  | Except.ok (c, s2) => (some c, disconnectItem c (setParentRef c Option.none s2))

/-- RemoveItemCommand: the captured `_items` snapshot and `_position`. -/
structure RemoveItemCommand where
  items : List Nat
  position : Nat
  deriving DecidableEq

/-- RemoveItemCommand.__init__(model, position, itemCount, parentIndex):
`indexes = [model.index(i, 0, parentIndex) for i in range(position,
position+itemCount)]; self._items = [model.item(i) for i in indexes]` —
rows in range resolve to the parent's child at that row (the parent
reporting at least one column, as any displayable model does, so hasIndex
accepts column 0); an out-of-range row gives an invalid index, which
model.item resolves to the root (modelled as id 0). -/
def mkRemoveItemCommand (children : List Nat) (position itemCount : Nat) : RemoveItemCommand :=
  { items := (List.range itemCount).map (fun j => (children.get? (position + j)).getD 0),
    position := position }

/-- RemoveItemCommand.redo: `nextIndex = self._position; endIndex =
self._position + len(self._items); lastIndex = endIndex - 1;
beginRemoveRows(parent, nextIndex, lastIndex); for i in
sorted(range(nextIndex, endIndex), reverse=True):
self._model._itemRemovePosition(self._parentItem, nextIndex + i);
endRemoveRows()`.  Note that the loop variable `i` already ranges over
[nextIndex, endIndex) and the lambda adds `nextIndex` again. -/
def RemoveItemCommand.redo (cmd : RemoveItemCommand) (s : ItemState) : ItemState :=
  let nextIndex := cmd.position
  let endIndex := cmd.position + cmd.items.length
  let lastIndex := endIndex - 1
  let s1 := { s with events := s.events ++ [TreeEvent.beginRemoveRows nextIndex lastIndex] }
  let s2 := (revRange nextIndex endIndex).foldl
      (fun acc i => (AbstractDataTreeModel.itemRemovePosition (nextIndex + i) acc).2) s1
  { s2 with events := s2.events ++ [TreeEvent.endRemoveRows] }

/-- A parent with 8 children, ids 10..17 occupying rows 0..7. -/
def c1Children : List Nat := [10, 11, 12, 13, 14, 15, 16, 17]

/-- The C1 scenario state. -/
def c1State : ItemState :=
  { children := c1Children, qparent := fun _ => Option.none, events := [] }

/-- The RemoveRun command of rows 2..4 (position=2, count=3) over that
parent. -/
def c1Command : RemoveItemCommand := mkRemoveItemCommand c1Children 2 3

/-- C1: evaluating RemoveItemCommand for position=2, count=3 under a parent
with 8 children (ids 10..17).  The constructor snapshots the entities of
rows 2..4 (ids 12, 13, 14) and redo emits the bracket (firstRow=2,
lastRow=4) and leaves rowCount 5 as the claim says, but because the
removal lambda adds `nextIndex` to a loop variable that already ranges
over [2, 5), redo pops positions 6, 5 and 4 — detaching the entities that
occupied rows 4..6 (ids 14, 15, 16) instead of the snapshotted rows 2..4 —
so row 2 still holds the original row-2 entity (id 12) and the entity
formerly at row 5 (id 15) has been removed rather than becoming row 2. -/
theorem removeRun_redo_removes_wrong_rows :
    c1Command.items = [12, 13, 14]
    ∧ (c1Command.redo c1State).events =
        [TreeEvent.beginRemoveRows 2 4,
         TreeEvent.childRemoved 16, TreeEvent.disconnected 16,
         TreeEvent.childRemoved 15, TreeEvent.disconnected 15,
         TreeEvent.childRemoved 14, TreeEvent.disconnected 14,
         TreeEvent.endRemoveRows]
    ∧ (c1Command.redo c1State).children.length = 5
    ∧ (c1Command.redo c1State).children = [10, 11, 12, 13, 17]
    ∧ (c1Command.redo c1State).children.get? 2 = some 12
    ∧ 15 ∉ (c1Command.redo c1State).children := by
  refine ⟨by decide, ?_, ?_, ?_, ?_, ?_⟩ <;> decide

/- ### The model mediators' setData pipeline -/

/-- A Qt model index: either the invalid (null/root) index or a valid index
carrying (row, column, internalPointer).  The internal pointer of a
model-created index is the resolved item (an id here); Qt also permits a
valid index with a null pointer. -/
inductive QModelIndex where
  | invalid
  | valid (row : Nat) (col : Int) (ptr : Option Nat)
  deriving DecidableEq

/-- QModelIndex.column(): -1 for the invalid index. -/
def QModelIndex.column : QModelIndex → Int
  | QModelIndex.invalid => -1
  | QModelIndex.valid _ c _ => c

/-- AbstractSetDataCommand.__init__(item, column, newvalue, oldvalue, role,
text=None): assigns the captured fields and then, because every call site
passes no text, builds the display text from `self._index` and
`self._value` — attributes this class never assigns — so the constructor
raises AttributeError before the command object can be returned. -/
def mkAbstractSetDataCommand (item : Nat) (column : Int) (newvalue oldvalue : PyVal)
    (role : Int) (text : Option String) : Except PyError AbstractSetDataCommand :=
  match text with
  | Option.none => Except.error PyError.attributeError
  | some _ => Except.ok { item := item, column := column, role := role,
                          newvalue := newvalue, oldvalue := oldvalue }

/-- The tree mediator state: every item id's cell store (the root is id 0,
its store holds the header data) and whether an undo stack is attached. -/
structure TreeModelState where
  itemStore : Nat → Store
  undostack : Bool

/-- AbstractDataTreeModel.item(index): the internal pointer when the index
is valid and carries one, and otherwise — including for the invalid
(null) index — the root item (id 0).  The method never yields a falsy
result, so the `if not item: return False` guard in setData can never
fire for the tree model. -/
def TreeModelState.item (_m : TreeModelState) : QModelIndex → Nat
  | QModelIndex.invalid => 0
  | QModelIndex.valid _ _ ptr => ptr.getD 0

/-- AbstractDataTreeModel.data(index, role): None for the invalid index,
otherwise the resolved item's cell at (index.column(), role). -/
def TreeModelState.data (m : TreeModelState) (ix : QModelIndex) (role : Int) : PyVal :=
  match ix with
  | QModelIndex.invalid => PyVal.none
  | _ => AbstractDataItem.data (m.itemStore (m.item ix)) ix.column role

/-- AbstractDataTreeModel.createSetDataCommand(item, index, value, role):
`oldvalue = self.data(index, role); return AbstractSetDataCommand(item,
index.column(), value, oldvalue, role) if oldvalue != value else None`. -/
def TreeModelState.createSetDataCommand (m : TreeModelState) (ix : QModelIndex)
    (v : PyVal) (role : Int) : Except PyError (Option AbstractSetDataCommand) :=
  let oldvalue := m.data ix role
  if oldvalue ≠ v then
    (mkAbstractSetDataCommand (m.item ix) ix.column v oldvalue role Option.none).map some
  else Except.ok Option.none

/-- The store effect of AbstractSetDataCommand.redo on the tree mediator:
`self._item.setData(self._column, self._newvalue, self._role)`. -/
def AbstractSetDataCommand.redoOnTree (c : AbstractSetDataCommand) (m : TreeModelState) :
    TreeModelState :=
  { m with itemStore := fun i =>
      if i = c.item then AbstractDataItem.setData (m.itemStore i) c.column c.newvalue c.role
      else m.itemStore i }

/-- AbstractDataTreeModel.executeCommand(command): `if self._undostack:
self._undostack.push(command) else: command.redo(); return
command.result()`.  With command = None this calls `None.redo()`
(AttributeError) or `QUndoStack.push(None)` (TypeError); with a real
command, push/redo applies the edit and result() is the True returned by
Entity.setData. -/
def TreeModelState.executeCommand (m : TreeModelState)
    (command : Option AbstractSetDataCommand) : Except PyError (TreeModelState × Bool) :=
  match command with
  | Option.none =>
      if m.undostack then Except.error PyError.typeError
      else Except.error PyError.attributeError
  | some c => Except.ok (c.redoOnTree m, true)

/-- AbstractDataTreeModel.setData(index, value, role): resolves the item
(never falsy for the tree model, so the `if not item: return False` guard
is dead), builds the command, executes it. -/
def TreeModelState.setData (m : TreeModelState) (ix : QModelIndex) (v : PyVal)
    (role : Int) : Except PyError (TreeModelState × Bool) :=
  match m.createSetDataCommand ix v role with
  | Except.error e => Except.error e
  | Except.ok command => m.executeCommand command

/-- A concrete tree mediator: all stores empty, no undo stack. -/
def c3Model : TreeModelState := { itemStore := fun _ => [], undostack := false }

/-- C3: calling setData on the tree mediator with the null (invalid/root)
index does not return false — the index resolves to the root item, which
is truthy — and instead raises: with a value different from the stored
None the AbstractSetDataCommand constructor raises AttributeError (it
reads the never-assigned `self._index`), and with an equal value
createSetDataCommand returns None and executeCommand calls `None.redo()`,
also an AttributeError.  Either way an exception escapes and no False
return is produced, contradicting the claim. -/
theorem treeModel_setData_null_index_raises :
    c3Model.setData QModelIndex.invalid (PyVal.str "x") EditRole
      = Except.error PyError.attributeError
    ∧ c3Model.setData QModelIndex.invalid PyVal.none EditRole
      = Except.error PyError.attributeError := by
  exact ⟨rfl, rfl⟩

/- ### The list mediator variant, for the dead-edit claim -/

/-- The list mediator state: the row items' stores and whether an undo
stack is attached. -/
structure ListModelState where
  items : List Store
  undostack : Bool

/-- AbstractDataListModel.item(index): None for the invalid index
(`return None`); for a valid index the internal pointer, falling back to
`self._items[index.row()]`.  A model-created live index's pointer is the
item at its row, so resolution is modelled by the row position; an
out-of-range row raises IndexError in the fallback. -/
def ListModelState.itemPos (m : ListModelState) : QModelIndex → Except PyError (Option Nat)
  | QModelIndex.invalid => Except.ok Option.none
  | QModelIndex.valid row _ _ =>
      if row < m.items.length then Except.ok (some row)
      else Except.error PyError.indexError

/-- AbstractDataListModel.data(index, role): `item.data(index.column(),
role) if item else None`. -/
def ListModelState.data (m : ListModelState) (ix : QModelIndex) (role : Int) :
    Except PyError PyVal :=
  match m.itemPos ix with
  | Except.error e => Except.error e
  | Except.ok Option.none => Except.ok PyVal.none
  | Except.ok (some p) =>
      Except.ok (AbstractDataItem.data ((m.items.get? p).getD []) ix.column role)

/-- AbstractDataListModel.createSetDataCommand(item, index, value, role):
same structure as the tree variant. -/
def ListModelState.createSetDataCommand (m : ListModelState) (p : Nat) (ix : QModelIndex)
    (v : PyVal) (role : Int) : Except PyError (Option AbstractSetDataCommand) :=
  match m.data ix role with
  | Except.error e => Except.error e
  | Except.ok oldvalue =>
      if oldvalue ≠ v then
        (mkAbstractSetDataCommand p ix.column v oldvalue role Option.none).map some
      else Except.ok Option.none

/-- The store effect of AbstractSetDataCommand.redo on the list mediator. -/
def AbstractSetDataCommand.redoOnList (c : AbstractSetDataCommand) (m : ListModelState) :
    ListModelState :=
  { m with items := (m.items.set c.item
      (AbstractDataItem.setData ((m.items.get? c.item).getD []) c.column c.newvalue c.role)) }

/-- AbstractDataListModel.executeCommand(command): identical to the tree
variant. -/
def ListModelState.executeCommand (m : ListModelState)
    (command : Option AbstractSetDataCommand) : Except PyError (ListModelState × Bool) :=
  match command with
  | Option.none =>
      if m.undostack then Except.error PyError.typeError
      else Except.error PyError.attributeError
  | some c => Except.ok (c.redoOnList m, true)

/-- AbstractDataListModel.setData(index, value, role): `item =
self.item(index); if not item: return False; command =
self.createSetDataCommand(item, index, value, role); return
self.executeCommand(command)`. -/
def ListModelState.setData (m : ListModelState) (ix : QModelIndex) (v : PyVal)
    (role : Int) : Except PyError (ListModelState × Bool) :=
  match m.itemPos ix with
  | Except.error e => Except.error e
  | Except.ok Option.none => Except.ok (m, false)
  | Except.ok (some p) =>
      match m.createSetDataCommand p ix v role with
      | Except.error e => Except.error e
      | Except.ok command => m.executeCommand command

/-- C10: with no undo stack attached, setData on a valid index with a value
equal to the currently stored value does not produce a boolean no-op
return: createSetDataCommand yields None for the dead edit and
executeCommand invokes `redo()` on None, raising AttributeError — for both
the tree and the list mediator. -/
theorem setData_dead_edit_raises :
    (∀ (m : TreeModelState) (ix : QModelIndex) (v : PyVal) (role : Int),
      m.undostack = false → ix ≠ QModelIndex.invalid → m.data ix role = v →
        m.setData ix v role = Except.error PyError.attributeError)
    ∧ (∀ (m : ListModelState) (ix : QModelIndex) (v : PyVal) (role : Int) (p : Nat),
      m.undostack = false → m.itemPos ix = Except.ok (some p) →
        m.data ix role = Except.ok v →
        m.setData ix v role = Except.error PyError.attributeError) := by
  constructor
  · intro m ix v role hstack _hvalid hold
    simp [TreeModelState.setData, TreeModelState.createSetDataCommand, hold,
      TreeModelState.executeCommand, hstack]
  · intro m ix v role p hstack hpos hold
    simp [ListModelState.setData, hpos, ListModelState.createSetDataCommand, hold,
      ListModelState.executeCommand, hstack]

/-- Witness for C10: a tree mediator and a list mediator, each without an
undo stack, each reading back the stored value at a valid index. -/
theorem setData_dead_edit_raises_witness :
    ((TreeModelState.mk (fun _ => [(2, [(0, PyVal.int 7)])]) false).data
        (QModelIndex.valid 0 0 (some 1)) 2 = PyVal.int 7
      ∧ (TreeModelState.mk (fun _ => [(2, [(0, PyVal.int 7)])]) false).setData
          (QModelIndex.valid 0 0 (some 1)) (PyVal.int 7) 2
          = Except.error PyError.attributeError)
    ∧ ((ListModelState.mk [[(2, [(0, PyVal.int 7)])]] false).data
        (QModelIndex.valid 0 0 (some 0)) 2 = Except.ok (PyVal.int 7)
      ∧ (ListModelState.mk [[(2, [(0, PyVal.int 7)])]] false).setData
          (QModelIndex.valid 0 0 (some 0)) (PyVal.int 7) 2
          = Except.error PyError.attributeError) := by
  refine ⟨⟨rfl, ?_⟩, ⟨rfl, ?_⟩⟩
  · exact setData_dead_edit_raises.1 (TreeModelState.mk (fun _ => [(2, [(0, PyVal.int 7)])]) false)
      (QModelIndex.valid 0 0 (some 1)) (PyVal.int 7) 2 rfl (by decide) rfl
  · exact setData_dead_edit_raises.2 (ListModelState.mk [[(2, [(0, PyVal.int 7)])]] false)
      (QModelIndex.valid 0 0 (some 0)) (PyVal.int 7) 2 0 rfl rfl rfl

/- ### Flags: AbstractDataItem.insertFlags / removeFlags and the
AbstractDataTreeItem recursion over descendants -/

/-- AbstractDataItem.flags(id): `self.data(id, AbstractData.FlagRole) or
(Qt.ItemIsEnabled | Qt.ItemIsSelectable)` — Python `or` yields the stored
value when truthy and otherwise the default bitmask 33 (= 32 | 1). -/
def AbstractDataItem.flags (s : Store) (id : Int) : PyVal :=
  let d := AbstractDataItem.data s id FlagRole
  if pyTruthy d then d else PyVal.int 33

/-- AbstractDataItem.setFlags(id, value): `self.setData(id, value,
AbstractData.FlagRole)`. -/
def AbstractDataItem.setFlags (s : Store) (id : Int) (v : PyVal) : Store :=
  AbstractDataItem.setData s id v FlagRole

/-- The iteration domain of insertFlags/removeFlags:
`self._staticdata.data(AbstractData.FlagRole)` is the FlagRole bucket
(the empty dict when the role was never written); Python iterates its keys
in insertion order. -/
def flagKeys (s : Store) : List Int :=
  match alGet FlagRole s with
  | some b => b.map Prod.fst
  | Option.none => []

/-- Python `x | value` on a stored flag cell: defined for ints only
(anything else raises TypeError). -/
def pyOrInt (x : PyVal) (v : Int) : Except PyError PyVal :=
  match x with
  | PyVal.int f => Except.ok (PyVal.int (Int.lor f v))
  | _ => Except.error PyError.typeError

/-- Python `x & ~value` on a stored flag cell. -/
def pyAndNotInt (x : PyVal) (v : Int) : Except PyError PyVal :=
  match x with
  | PyVal.int f => Except.ok (PyVal.int (Int.land f (Int.lnot v)))
  | _ => Except.error PyError.typeError

/-- The shared loop shape of insertFlags/removeFlags: `for id in <keys>:
self.setFlags(id, op(self.flags(id)))`, re-reading the evolving store at
each step exactly as the Python loop does. -/
def flagsLoop (op : PyVal → Except PyError PyVal) : List Int → Store → Except PyError Store
  | [], s => Except.ok s
  | k :: ks, s =>
      match op (AbstractDataItem.flags s k) with
      | Except.error e => Except.error e
      | Except.ok newv => flagsLoop op ks (AbstractDataItem.setFlags s k newv)

/-- AbstractDataItem.insertFlags(value): `for id in
self._staticdata.data(AbstractData.FlagRole): self.setFlags(id,
self.flags(id) | value)` — the loop ranges over the keys already present
in the FlagRole bucket, not over all columns of the entity. -/
def AbstractDataItem.insertFlags (s : Store) (v : Int) : Except PyError Store :=
  flagsLoop (fun x => pyOrInt x v) (flagKeys s) s

/-- AbstractDataItem.removeFlags(value): `for id in
self._staticdata.data(AbstractData.FlagRole): self.setFlags(id,
self.flags(id) & ~value)`. -/
def AbstractDataItem.removeFlags (s : Store) (v : Int) : Except PyError Store :=
  flagsLoop (fun x => pyAndNotInt x v) (flagKeys s) s

/-- The per-cell effect of insertFlags on a stored flag value: the flags()
read substitutes 33 for a falsy stored value, then ORs `v` in.  (The
non-int branch is never reached under the wellformedness hypothesis.) -/
def oredFlag (x : PyVal) (v : Int) : PyVal :=
  match x with
  | PyVal.int f => PyVal.int (Int.lor (if f = 0 then 33 else f) v)
  | y => y

/-- The per-cell effect of removeFlags on a stored flag value. -/
def andNotFlag (x : PyVal) (v : Int) : PyVal :=
  match x with
  | PyVal.int f => PyVal.int (Int.land (if f = 0 then 33 else f) (Int.lnot v))
  | y => y

/-- Boolean key membership. -/
def keyMem (k : Int) : List Int → Bool
  | [] => false
  | x :: xs => decide (x = k) || keyMem k xs

/-- Keys are pairwise distinct (always true of a Python dict's keys). -/
def noDupKeys : List Int → Bool
  | [] => true
  | k :: ks => !keyMem k ks && noDupKeys ks

/-- Every stored value in a bucket is an int. -/
def allIntVals : List (Int × PyVal) → Bool
  | [] => true
  | (_, PyVal.int _) :: rest => allIntVals rest
  | _ => false

/-- Wellformedness of the FlagRole bucket: distinct keys, int values. -/
def flagBucketWF (s : Store) : Bool :=
  match alGet FlagRole s with
  | Option.none => true
  | some b => noDupKeys (b.map Prod.fst) && allIntVals b

/-- Transform every value of a bucket. -/
def trBucket (tr : PyVal → PyVal) : List (Int × PyVal) → List (Int × PyVal)
  | [] => []
  | (k, x) :: rest => (k, tr x) :: trBucket tr rest

/-- Replace a role's bucket in place. -/
def replaceRole (role : Int) (nb : List (Int × PyVal)) : Store → Store
  | [] => []
  | (r, b) :: rest =>
      if role = r then (r, nb) :: rest else (r, b) :: replaceRole role nb rest

theorem keyMem_append (k : Int) (l1 l2 : List Int) :
    keyMem k (l1 ++ l2) = (keyMem k l1 || keyMem k l2) := by
  induction l1 with
  | nil => simp [keyMem]
  | cons x xs ih => simp [keyMem, ih, Bool.or_assoc]

theorem alGet_some_keyMem (k : Int) (x : α) (l : List (Int × α))
    (h : alGet k l = some x) : keyMem k (l.map Prod.fst) = true := by
  induction l with
  | nil => simp [alGet] at h
  | cons p rest ih =>
      obtain ⟨k2, y⟩ := p
      by_cases hk : k = k2
      · simp [keyMem, hk]
      · simp [alGet, hk] at h
        simp [keyMem, ih h]

theorem alGet_none_of_not_keyMem (k : Int) (l : List (Int × α))
    (h : keyMem k (l.map Prod.fst) = false) : alGet k l = Option.none := by
  induction l with
  | nil => simp [alGet]
  | cons p rest ih =>
      obtain ⟨k2, y⟩ := p
      simp [keyMem, Bool.or_eq_false_iff] at h
      obtain ⟨h1, h2⟩ := h
      have hk : k ≠ k2 := fun he => h1 he.symm
      simp [alGet, hk, ih h2]

theorem alGet_left_none_of_noDup (k : Int) (x : α) (l1 l2 : List (Int × α))
    (hnd : noDupKeys ((l1 ++ l2).map Prod.fst) = true)
    (h2 : alGet k l2 = some x) : alGet k l1 = Option.none := by
  induction l1 with
  | nil => simp [alGet]
  | cons p rest ih =>
      obtain ⟨k2, y⟩ := p
      simp only [List.map_cons, List.map_append, noDupKeys, List.cons_append,
        Bool.and_eq_true, Bool.not_eq_true'] at hnd
      obtain ⟨h1, hrest⟩ := hnd
      have hrest2 : noDupKeys ((rest ++ l2).map Prod.fst) = true := by
        simpa [List.map_append] using hrest
      by_cases hk : k = k2
      · subst hk
        simp only [List.append_eq] at h1
        rw [List.map_append, keyMem_append] at h1
        have := alGet_some_keyMem k x l2 h2
        simp [this] at h1
      · simp [alGet, hk, ih hrest2]

theorem alGet_append_of_left_none (k : Int) (l1 l2 : List (Int × α))
    (h : alGet k l1 = Option.none) : alGet k (l1 ++ l2) = alGet k l2 := by
  induction l1 with
  | nil => simp
  | cons p rest ih =>
      obtain ⟨k2, y⟩ := p
      by_cases hk : k = k2
      · simp [alGet, hk] at h
      · simp [alGet, hk] at h ⊢
        exact ih h

theorem alSet_append_of_left_none (k : Int) (v : α) (l1 l2 : List (Int × α))
    (h : alGet k l1 = Option.none) : alSet k v (l1 ++ l2) = l1 ++ alSet k v l2 := by
  induction l1 with
  | nil => simp
  | cons p rest ih =>
      obtain ⟨k2, y⟩ := p
      by_cases hk : k = k2
      · simp [alGet, hk] at h
      · simp [alGet, hk] at h
        simp [alSet, hk, ih h]

theorem set_eq_replaceRole (s : Store) (role k : Int) (v : PyVal)
    (b : List (Int × PyVal)) (h : alGet role s = some b) :
    AbstractData.set s role k v = replaceRole role (alSet k v b) s := by
  induction s with
  | nil => simp [alGet] at h
  | cons p rest ih =>
      obtain ⟨r, b2⟩ := p
      by_cases hr : role = r
      · subst hr
        simp [alGet] at h
        simp [AbstractData.set, replaceRole, h]
      · simp [alGet, hr] at h
        simp [AbstractData.set, replaceRole, hr, ih h]

theorem alGet_replaceRole_self (s : Store) (role : Int) (nb b : List (Int × PyVal))
    (h : alGet role s = some b) : alGet role (replaceRole role nb s) = some nb := by
  induction s with
  | nil => simp [alGet] at h
  | cons p rest ih =>
      obtain ⟨r, b2⟩ := p
      by_cases hr : role = r
      · simp [replaceRole, hr, alGet]
      · simp [alGet, hr] at h
        simp [replaceRole, hr, alGet, ih h]

theorem alGet_replaceRole_ne (s : Store) (role r2 : Int) (nb : List (Int × PyVal))
    (h : r2 ≠ role) : alGet r2 (replaceRole role nb s) = alGet r2 s := by
  induction s with
  | nil => simp [replaceRole]
  | cons p rest ih =>
      obtain ⟨r, b2⟩ := p
      by_cases hr : role = r
      · subst hr
        simp [replaceRole, alGet, h, ih]
      · by_cases hr2 : r2 = r
        · simp [replaceRole, hr, alGet, hr2]
        · simp [replaceRole, hr, alGet, hr2, ih]

theorem replaceRole_self (s : Store) (role : Int) (b : List (Int × PyVal))
    (h : alGet role s = some b) : replaceRole role b s = s := by
  induction s with
  | nil => simp [replaceRole]
  | cons p rest ih =>
      obtain ⟨r, b2⟩ := p
      by_cases hr : role = r
      · subst hr
        simp [alGet] at h
        simp [replaceRole, h]
      · simp [alGet, hr] at h
        simp [replaceRole, hr, ih h]

theorem replaceRole_replaceRole (s : Store) (role : Int)
    (b1 b2 : List (Int × PyVal)) :
    replaceRole role b2 (replaceRole role b1 s) = replaceRole role b2 s := by
  induction s with
  | nil => simp [replaceRole]
  | cons p rest ih =>
      obtain ⟨r, b3⟩ := p
      by_cases hr : role = r
      · simp [replaceRole, hr]
      · simp [replaceRole, hr, ih]

theorem alGet_trBucket (k : Int) (tr : PyVal → PyVal) (b : List (Int × PyVal)) :
    alGet k (trBucket tr b) = (alGet k b).map tr := by
  induction b with
  | nil => simp [trBucket, alGet]
  | cons p rest ih =>
      obtain ⟨k2, x⟩ := p
      by_cases hk : k = k2
      · simp [trBucket, alGet, hk]
      · simp [trBucket, alGet, hk, ih]

theorem flags_of_bucket (s : Store) (k : Int) (b : List (Int × PyVal)) (x : PyVal)
    (hb : alGet FlagRole s = some b) (hx : alGet k b = some x) :
    AbstractDataItem.flags s k = if pyTruthy x then x else PyVal.int 33 := by
  have hbne : b ≠ [] := by
    intro he
    rw [he] at hx
    simp [alGet] at hx
  unfold AbstractDataItem.flags AbstractDataItem.data AbstractData.get
  rw [hb]
  simp [List.isEmpty_iff, hbne, hx]

/-- The invariant proof of the flags loop: processing the keys of the
still-untouched suffix `btodo` of the FlagRole bucket rewrites exactly
those entries with `tr` and leaves everything else in place.  `op` is the
Python cell update and `tr` its effect on a stored int value. -/
theorem flagsLoop_spec (op : PyVal → Except PyError PyVal) (tr : PyVal → PyVal)
    (hop : ∀ f : Int,
      op (if pyTruthy (PyVal.int f) then PyVal.int f else PyVal.int 33)
        = Except.ok (tr (PyVal.int f)))
    (btodo : List (Int × PyVal)) :
    ∀ (bdone : List (Int × PyVal)) (s : Store),
      alGet FlagRole s = some (bdone ++ btodo) →
      noDupKeys ((bdone ++ btodo).map Prod.fst) = true →
      allIntVals btodo = true →
      flagsLoop op (btodo.map Prod.fst) s
        = Except.ok (replaceRole FlagRole (bdone ++ trBucket tr btodo) s) := by
  induction btodo with
  | nil =>
      intro bdone s hget _hnd _hint
      simp only [List.map_nil, flagsLoop, trBucket, List.append_nil]
      rw [replaceRole_self s FlagRole bdone (by simpa using hget)]
  | cons p rest ih =>
      intro bdone s hget hnd hint
      obtain ⟨k, x⟩ := p
      obtain ⟨f, rfl⟩ : ∃ f, x = PyVal.int f := by
        cases x with
        | int f => exact ⟨f, rfl⟩
        | none => simp [allIntVals] at hint
        | str s2 => simp [allIntVals] at hint
      have hint2 : allIntVals rest = true := by simpa [allIntVals] using hint
      have hdone : alGet k bdone = Option.none :=
        alGet_left_none_of_noDup k (PyVal.int f) bdone ((k, PyVal.int f) :: rest) hnd
          (by simp [alGet])
      have hx : alGet k (bdone ++ (k, PyVal.int f) :: rest) = some (PyVal.int f) := by
        rw [alGet_append_of_left_none k bdone _ hdone]
        simp [alGet]
      have hflags := flags_of_bucket s k _ _ hget hx
      have hseteq : AbstractDataItem.setFlags s k (tr (PyVal.int f))
          = replaceRole FlagRole (bdone ++ (k, tr (PyVal.int f)) :: rest) s := by
        unfold AbstractDataItem.setFlags AbstractDataItem.setData
        rw [set_eq_replaceRole s FlagRole k (tr (PyVal.int f)) _ hget,
          alSet_append_of_left_none k _ bdone _ hdone]
        simp [alSet]
      simp only [List.map_cons, flagsLoop, hflags, hop f]
      rw [hseteq]
      have hkeys : ((bdone ++ [(k, tr (PyVal.int f))]) ++ rest).map Prod.fst
          = (bdone ++ (k, PyVal.int f) :: rest).map Prod.fst := by
        simp
      have hget2 : alGet FlagRole
          (replaceRole FlagRole (bdone ++ (k, tr (PyVal.int f)) :: rest) s)
          = some ((bdone ++ [(k, tr (PyVal.int f))]) ++ rest) := by
        rw [alGet_replaceRole_self s FlagRole _ _ hget]
        simp
      have := ih (bdone ++ [(k, tr (PyVal.int f))])
        (replaceRole FlagRole (bdone ++ (k, tr (PyVal.int f)) :: rest) s)
        hget2 (by rw [hkeys]; exact hnd) hint2
      rw [this, replaceRole_replaceRole]
      simp [trBucket]

/-- The find-level characterization shared by both flag operations. -/
theorem flagsLoop_find (op : PyVal → Except PyError PyVal) (tr : PyVal → PyVal)
    (hop : ∀ f : Int,
      op (if pyTruthy (PyVal.int f) then PyVal.int f else PyVal.int 33)
        = Except.ok (tr (PyVal.int f)))
    (s : Store) (hwf :
      (match alGet FlagRole s with
        | Option.none => true
        | some b => noDupKeys (b.map Prod.fst) && allIntVals b) = true) :
    ∃ s2, flagsLoop op (flagKeys s) s = Except.ok s2
      ∧ ∀ role col, AbstractData.find s2 role col =
          if role = FlagRole then (AbstractData.find s FlagRole col).map tr
          else AbstractData.find s role col := by
  cases hb : alGet FlagRole s with
  | none =>
      refine ⟨s, by simp [flagKeys, hb, flagsLoop], ?_⟩
      intro role col
      by_cases hr : role = FlagRole
      · subst hr
        simp [AbstractData.find, hb]
      · simp [hr]
  | some b =>
      rw [hb] at hwf
      simp only [Bool.and_eq_true] at hwf
      obtain ⟨hnd, hint⟩ := hwf
      have hspec := flagsLoop_spec op tr hop b [] s (by simpa using hb)
        (by simpa using hnd) hint
      refine ⟨replaceRole FlagRole ([] ++ trBucket tr b) s, ?_, ?_⟩
      · rw [flagKeys, hb]
        exact hspec
      · intro role col
        by_cases hr : role = FlagRole
        · subst hr
          unfold AbstractData.find
          rw [alGet_replaceRole_self s FlagRole _ _ hb, hb]
          simp [alGet_trBucket]
        · simp only [if_neg hr]
          unfold AbstractData.find
          rw [alGet_replaceRole_ne s FlagRole role _ hr]

/- Tree items: an entity store plus ordered children, for the recursive
flag operations. -/

mutual
/-- AbstractDataTreeItem as a tree of entity stores. -/
inductive TreeItem where
  | node (sdata : Store) (children : TreeForest)
/-- The ordered child sequence of a TreeItem. -/
inductive TreeForest where
  | tnil
  | tcons (hd : TreeItem) (tl : TreeForest)
end

mutual
/-- Preorder list of all entity stores in the tree (the item and every
descendant). -/
def TreeItem.nodes : TreeItem → List Store
  | TreeItem.node s c => s :: TreeForest.nodes c
/-- Preorder list of all entity stores in a forest. -/
def TreeForest.nodes : TreeForest → List Store
  | TreeForest.tnil => []
  | TreeForest.tcons h t => TreeItem.nodes h ++ TreeForest.nodes t
end

mutual
/-- AbstractDataTreeItem.insertFlags(value):
`super().insertFlags(value); for child in self._children:
child.insertFlags(value)`. -/
def TreeItem.insertFlags : TreeItem → Int → Except PyError TreeItem
  | TreeItem.node s c, v =>
      match AbstractDataItem.insertFlags s v with
      | Except.error e => Except.error e
      | Except.ok s2 =>
          match TreeForest.insertFlags c v with
          | Except.error e => Except.error e
          | Except.ok c2 => Except.ok (TreeItem.node s2 c2)
/-- insertFlags over each child in order. -/
def TreeForest.insertFlags : TreeForest → Int → Except PyError TreeForest
  | TreeForest.tnil, _ => Except.ok TreeForest.tnil
  | TreeForest.tcons h t, v =>
      match TreeItem.insertFlags h v with
      | Except.error e => Except.error e
      | Except.ok h2 =>
          match TreeForest.insertFlags t v with
          | Except.error e => Except.error e
          | Except.ok t2 => Except.ok (TreeForest.tcons h2 t2)
end

mutual
/-- AbstractDataTreeItem.removeFlags(value):
`super().removeFlags(value); for child in self._children:
child.removeFlags(value)`. -/
def TreeItem.removeFlags : TreeItem → Int → Except PyError TreeItem
  | TreeItem.node s c, v =>
      match AbstractDataItem.removeFlags s v with
      | Except.error e => Except.error e
      | Except.ok s2 =>
          match TreeForest.removeFlags c v with
          | Except.error e => Except.error e
          | Except.ok c2 => Except.ok (TreeItem.node s2 c2)
/-- removeFlags over each child in order. -/
def TreeForest.removeFlags : TreeForest → Int → Except PyError TreeForest
  | TreeForest.tnil, _ => Except.ok TreeForest.tnil
  | TreeForest.tcons h t, v =>
      match TreeItem.removeFlags h v with
      | Except.error e => Except.error e
      | Except.ok h2 =>
          match TreeForest.removeFlags t v with
          | Except.error e => Except.error e
          | Except.ok t2 => Except.ok (TreeForest.tcons h2 t2)
end

/-- Apply a fallible store transformation to a list of stores. -/
def mapStores (f : Store → Except PyError Store) : List Store → Except PyError (List Store)
  | [] => Except.ok []
  | s :: rest =>
      match f s with
      | Except.error e => Except.error e
      | Except.ok s2 =>
          match mapStores f rest with
          | Except.error e => Except.error e
          | Except.ok rest2 => Except.ok (s2 :: rest2)

theorem mapStores_append (f : Store → Except PyError Store) (l1 l2 : List Store)
    (r1 r2 : List Store) (h1 : mapStores f l1 = Except.ok r1)
    (h2 : mapStores f l2 = Except.ok r2) :
    mapStores f (l1 ++ l2) = Except.ok (r1 ++ r2) := by
  induction l1 generalizing r1 with
  | nil =>
      simp [mapStores] at h1
      subst h1
      simpa using h2
  | cons s rest ih =>
      simp only [mapStores] at h1
      cases hf : f s with
      | error e => rw [hf] at h1; exact absurd h1 (by simp)
      | ok s2 =>
          rw [hf] at h1
          cases hrest : mapStores f rest with
          | error e => rw [hrest] at h1; exact absurd h1 (by simp)
          | ok rest2 =>
              rw [hrest] at h1
              obtain rfl : s2 :: rest2 = r1 := by simpa using h1
              simp only [List.cons_append, mapStores, hf]
              simp [ih rest2 hrest]

mutual
/-- A successful tree insertFlags applies the entity-level insertFlags to
the store of the item and of every descendant. -/
theorem treeInsertFlags_nodes (t t2 : TreeItem) (v : Int)
    (h : TreeItem.insertFlags t v = Except.ok t2) :
    mapStores (fun s => AbstractDataItem.insertFlags s v) (TreeItem.nodes t)
      = Except.ok (TreeItem.nodes t2) := by
  cases t with
  | node s c =>
      unfold TreeItem.insertFlags at h
      cases hs : AbstractDataItem.insertFlags s v with
      | error e => rw [hs] at h; exact absurd h (by simp)
      | ok s2 =>
          rw [hs] at h
          cases hc : TreeForest.insertFlags c v with
          | error e => rw [hc] at h; exact absurd h (by simp)
          | ok c2 =>
              rw [hc] at h
              obtain rfl : TreeItem.node s2 c2 = t2 := by simpa using h
              simp only [TreeItem.nodes, mapStores, hs,
                treeForestInsertFlags_nodes c c2 v hc]
/-- Forest version of treeInsertFlags_nodes. -/
theorem treeForestInsertFlags_nodes (c c2 : TreeForest) (v : Int)
    (h : TreeForest.insertFlags c v = Except.ok c2) :
    mapStores (fun s => AbstractDataItem.insertFlags s v) (TreeForest.nodes c)
      = Except.ok (TreeForest.nodes c2) := by
  cases c with
  | tnil =>
      obtain rfl : TreeForest.tnil = c2 := by
        simpa [TreeForest.insertFlags] using h
      simp [TreeForest.nodes, mapStores]
  | tcons hd tl =>
      unfold TreeForest.insertFlags at h
      cases hh : TreeItem.insertFlags hd v with
      | error e => rw [hh] at h; exact absurd h (by simp)
      | ok h2 =>
          rw [hh] at h
          cases ht : TreeForest.insertFlags tl v with
          | error e => rw [ht] at h; exact absurd h (by simp)
          | ok t2 =>
              rw [ht] at h
              obtain rfl : TreeForest.tcons h2 t2 = c2 := by simpa using h
              simp only [TreeForest.nodes]
              exact mapStores_append _ _ _ _ _
                (treeInsertFlags_nodes hd h2 v hh)
                (treeForestInsertFlags_nodes tl t2 v ht)
end

mutual
/-- A successful tree removeFlags applies the entity-level removeFlags to
the store of the item and of every descendant. -/
theorem treeRemoveFlags_nodes (t t2 : TreeItem) (v : Int)
    (h : TreeItem.removeFlags t v = Except.ok t2) :
    mapStores (fun s => AbstractDataItem.removeFlags s v) (TreeItem.nodes t)
      = Except.ok (TreeItem.nodes t2) := by
  cases t with
  | node s c =>
      unfold TreeItem.removeFlags at h
      cases hs : AbstractDataItem.removeFlags s v with
      | error e => rw [hs] at h; exact absurd h (by simp)
      | ok s2 =>
          rw [hs] at h
          cases hc : TreeForest.removeFlags c v with
          | error e => rw [hc] at h; exact absurd h (by simp)
          | ok c2 =>
              rw [hc] at h
              obtain rfl : TreeItem.node s2 c2 = t2 := by simpa using h
              simp only [TreeItem.nodes, mapStores, hs,
                treeForestRemoveFlags_nodes c c2 v hc]
/-- Forest version of treeRemoveFlags_nodes. -/
theorem treeForestRemoveFlags_nodes (c c2 : TreeForest) (v : Int)
    (h : TreeForest.removeFlags c v = Except.ok c2) :
    mapStores (fun s => AbstractDataItem.removeFlags s v) (TreeForest.nodes c)
      = Except.ok (TreeForest.nodes c2) := by
  cases c with
  | tnil =>
      obtain rfl : TreeForest.tnil = c2 := by
        simpa [TreeForest.removeFlags] using h
      simp [TreeForest.nodes, mapStores]
  | tcons hd tl =>
      unfold TreeForest.removeFlags at h
      cases hh : TreeItem.removeFlags hd v with
      | error e => rw [hh] at h; exact absurd h (by simp)
      | ok h2 =>
          rw [hh] at h
          cases ht : TreeForest.removeFlags tl v with
          | error e => rw [ht] at h; exact absurd h (by simp)
          | ok t2 =>
              rw [ht] at h
              obtain rfl : TreeForest.tcons h2 t2 = c2 := by simpa using h
              simp only [TreeForest.nodes]
              exact mapStores_append _ _ _ _ _
                (treeRemoveFlags_nodes hd h2 v hh)
                (treeForestRemoveFlags_nodes tl t2 v ht)
end

/-- An entity with a display cell in column 0 and no FlagRole entries. -/
def c8Store : Store := [(0, [(0, PyVal.str "A")])]

/-- C8 counterexample: insertFlags does not OR the mask into "the flags of
all columns" — on an entity whose column 0 has a display value but no
stored FlagRole entry, insertFlags(2) leaves the store unchanged, so
flags(0) still reports the default 33 and not 33 | 2 = 35. -/
theorem insertFlags_skips_unflagged_columns :
    AbstractDataItem.insertFlags c8Store 2 = Except.ok c8Store
    ∧ AbstractDataItem.flags c8Store 0 = PyVal.int 33
    ∧ AbstractDataItem.flags c8Store 0 ≠ PyVal.int 35 := by
  exact ⟨rfl, rfl, by decide⟩

/-- C8 amended: insertFlags(v) ORs v into — and removeFlags(v) AND-NOTs v
out of — the flags of exactly those columns of the entity that already
have a stored FlagRole entry (reading a falsy stored value as the default
33 first), leaving every other (role, column) cell untouched; for a
TreeEntity a successful run applies the same per-entity operation to the
item and every descendant. -/
theorem insertRemoveFlags_on_existing_flag_entries :
    (∀ (s : Store) (v : Int), flagBucketWF s = true →
      ∃ s2, AbstractDataItem.insertFlags s v = Except.ok s2
        ∧ ∀ role col, AbstractData.find s2 role col =
            if role = FlagRole then (AbstractData.find s FlagRole col).map (oredFlag · v)
            else AbstractData.find s role col)
    ∧ (∀ (s : Store) (v : Int), flagBucketWF s = true →
      ∃ s2, AbstractDataItem.removeFlags s v = Except.ok s2
        ∧ ∀ role col, AbstractData.find s2 role col =
            if role = FlagRole then (AbstractData.find s FlagRole col).map (andNotFlag · v)
            else AbstractData.find s role col)
    ∧ (∀ (t t2 : TreeItem) (v : Int), TreeItem.insertFlags t v = Except.ok t2 →
        mapStores (fun s => AbstractDataItem.insertFlags s v) (TreeItem.nodes t)
          = Except.ok (TreeItem.nodes t2))
    ∧ (∀ (t t2 : TreeItem) (v : Int), TreeItem.removeFlags t v = Except.ok t2 →
        mapStores (fun s => AbstractDataItem.removeFlags s v) (TreeItem.nodes t)
          = Except.ok (TreeItem.nodes t2)) := by
  refine ⟨?_, ?_, ?_, ?_⟩
  · intro s v hwf
    exact flagsLoop_find (fun x => pyOrInt x v) (oredFlag · v)
      (by
        intro f
        by_cases hf : f = 0
        · simp [hf, pyTruthy, pyOrInt, oredFlag]
        · simp [hf, pyTruthy, pyOrInt, oredFlag])
      s (by simpa [flagBucketWF] using hwf)
  · intro s v hwf
    exact flagsLoop_find (fun x => pyAndNotInt x v) (andNotFlag · v)
      (by
        intro f
        by_cases hf : f = 0
        · simp [hf, pyTruthy, pyAndNotInt, andNotFlag]
        · simp [hf, pyTruthy, pyAndNotInt, andNotFlag])
      s (by simpa [flagBucketWF] using hwf)
  · exact fun t t2 v h => treeInsertFlags_nodes t t2 v h
  · exact fun t t2 v h => treeRemoveFlags_nodes t t2 v h

/-- Witness for C8 amended: a store with one flagged column (flags 1 at
column 0) and a tree of two such entities. -/
theorem insertRemoveFlags_on_existing_flag_entries_witness :
    (flagBucketWF [(FlagRole, [(0, PyVal.int 1)])] = true
      ∧ ∃ s2, AbstractDataItem.insertFlags [(FlagRole, [(0, PyVal.int 1)])] 2 = Except.ok s2
          ∧ ∀ role col, AbstractData.find s2 role col =
              if role = FlagRole then
                (AbstractData.find [(FlagRole, [(0, PyVal.int 1)])] FlagRole col).map (oredFlag · 2)
              else AbstractData.find [(FlagRole, [(0, PyVal.int 1)])] role col)
    ∧ (TreeItem.insertFlags
          (TreeItem.node [(FlagRole, [(0, PyVal.int 1)])]
            (TreeForest.tcons (TreeItem.node [(FlagRole, [(0, PyVal.int 1)])] TreeForest.tnil)
              TreeForest.tnil)) 2
        = Except.ok (TreeItem.node [(FlagRole, [(0, PyVal.int 3)])]
            (TreeForest.tcons (TreeItem.node [(FlagRole, [(0, PyVal.int 3)])] TreeForest.tnil)
              TreeForest.tnil))
      ∧ mapStores (fun s => AbstractDataItem.insertFlags s 2)
          (TreeItem.nodes (TreeItem.node [(FlagRole, [(0, PyVal.int 1)])]
            (TreeForest.tcons (TreeItem.node [(FlagRole, [(0, PyVal.int 1)])] TreeForest.tnil)
              TreeForest.tnil)))
          = Except.ok (TreeItem.nodes (TreeItem.node [(FlagRole, [(0, PyVal.int 3)])]
            (TreeForest.tcons (TreeItem.node [(FlagRole, [(0, PyVal.int 3)])] TreeForest.tnil)
              TreeForest.tnil)))) := by
  refine ⟨⟨by decide, ?_⟩, ⟨?_, ?_⟩⟩
  · exact insertRemoveFlags_on_existing_flag_entries.1 [(FlagRole, [(0, PyVal.int 1)])] 2
      (by decide)
  · rfl
  · exact insertRemoveFlags_on_existing_flag_entries.2.2.1
      (TreeItem.node [(FlagRole, [(0, PyVal.int 1)])]
        (TreeForest.tcons (TreeItem.node [(FlagRole, [(0, PyVal.int 1)])] TreeForest.tnil)
          TreeForest.tnil))
      (TreeItem.node [(FlagRole, [(0, PyVal.int 3)])]
        (TreeForest.tcons (TreeItem.node [(FlagRole, [(0, PyVal.int 3)])] TreeForest.tnil)
          TreeForest.tnil)) 2 (by rfl)

/- ### TreeColumnFilterProxyModel: recursive row visibility -/

mutual
/-- A row of the filtered source tree: its own cells (column ↦ value at
the filter role) and its child rows. -/
inductive FNode where
  | node (cells : List (Int × PyVal)) (children : FForest)
/-- The ordered child rows of an FNode. -/
inductive FForest where
  | fnil
  | fcons (hd : FNode) (tl : FForest)
end

/-- The cells of a row. -/
def FNode.cells : FNode → List (Int × PyVal)
  | FNode.node c _ => c

mutual
/-- The strict descendants of a row, in preorder. -/
def FNode.strictDesc : FNode → List FNode
  | FNode.node _ children => FForest.allNodes children
/-- All rows of a forest (each root and its descendants), in preorder. -/
def FForest.allNodes : FForest → List FNode
  | FForest.fnil => []
  | FForest.fcons h t => h :: (FNode.strictDesc h ++ FForest.allNodes t)
end

mutual
/-- TreeColumnFilterProxyModel.filterAcceptsRow(sourceRow, sourceParent):
accept when the base-class row test passes; otherwise resolve the row's
index (always valid for a row present in the tree; the invalid-index
branch accepts the root) and accept iff `any(self.filterAcceptsRow(i,
index) for i in range(rowCount(index)))`.  `rowPred` is the base
ColumnFilterProxyModel acceptance over the row's own cells — the
registered column filters (none are registered in the repository's tree
usage) together with the Qt regexp filter, which reads the row's cells at
the filter role. -/
def filterAcceptsRow (rowPred : List (Int × PyVal) → Bool) : FNode → Bool
  | FNode.node cells children => rowPred cells || anyChildAcceptsRow rowPred children
/-- Python `any(...)` over the child rows, short-circuiting like `||`. -/
def anyChildAcceptsRow (rowPred : List (Int × PyVal) → Bool) : FForest → Bool
  | FForest.fnil => false
  | FForest.fcons h t => filterAcceptsRow rowPred h || anyChildAcceptsRow rowPred t
end

mutual
/-- Unfolding of the recursive acceptance: a row is accepted iff its own
cells pass or some strict descendant's cells pass. -/
theorem filterAcceptsRow_iff (rowPred : List (Int × PyVal) → Bool) (n : FNode) :
    filterAcceptsRow rowPred n = true ↔
      (rowPred n.cells = true ∨ ∃ d ∈ FNode.strictDesc n, rowPred d.cells = true) := by
  cases n with
  | node cells children =>
      show (rowPred cells || anyChildAcceptsRow rowPred children) = true ↔
        (rowPred cells = true
          ∨ ∃ d ∈ FForest.allNodes children, rowPred (FNode.cells d) = true)
      rw [Bool.or_eq_true, anyChildAcceptsRow_iff rowPred children]
/-- Forest version: some row of the forest (a root or a descendant of one)
has cells passing the predicate. -/
theorem anyChildAcceptsRow_iff (rowPred : List (Int × PyVal) → Bool) (f : FForest) :
    anyChildAcceptsRow rowPred f = true ↔
      ∃ d ∈ FForest.allNodes f, rowPred d.cells = true := by
  cases f with
  | fnil => simp [anyChildAcceptsRow, FForest.allNodes]
  | fcons h t =>
      show (filterAcceptsRow rowPred h || anyChildAcceptsRow rowPred t) = true ↔
        ∃ d ∈ h :: (FNode.strictDesc h ++ FForest.allNodes t), rowPred (FNode.cells d) = true
      rw [Bool.or_eq_true, filterAcceptsRow_iff rowPred h, anyChildAcceptsRow_iff rowPred t]
      simp only [List.mem_cons, List.mem_append]
      constructor
      · rintro ((hp | ⟨d, hd, hp⟩) | ⟨d, hd, hp⟩)
        · exact ⟨h, Or.inl rfl, hp⟩
        · exact ⟨d, Or.inr (Or.inl hd), hp⟩
        · exact ⟨d, Or.inr (Or.inr hd), hp⟩
      · rintro ⟨d, (rfl | hd | hd), hp⟩
        · exact Or.inl (Or.inl hp)
        · exact Or.inl (Or.inr ⟨d, hd, hp⟩)
        · exact Or.inr ⟨d, hd, hp⟩
end

/-- C6: in the tree filter view, a row whose own cells do not satisfy the
filter predicate is reported visible (filterAcceptsRow returns true) iff
at least one descendant row, recursively, satisfies the predicate. -/
theorem treeFilter_scaffolding_iff (rowPred : List (Int × PyVal) → Bool) (n : FNode)
    (hfail : rowPred n.cells = false) :
    filterAcceptsRow rowPred n = true ↔
      ∃ d ∈ FNode.strictDesc n, rowPred d.cells = true := by
  rw [filterAcceptsRow_iff]
  simp [hfail]

/-- The concrete predicate "cell of column 0 equals X" used by the
witness. -/
def c6Pred : List (Int × PyVal) → Bool :=
  fun cells => decide (alGet 0 cells = some (PyVal.str "X"))

/-- A non-matching parent row with one matching child row. -/
def c6Node : FNode :=
  FNode.node [(0, PyVal.str "A")]
    (FForest.fcons (FNode.node [(0, PyVal.str "X")] FForest.fnil) FForest.fnil)

/-- Witness for C6 at a concrete tree and predicate. -/
theorem treeFilter_scaffolding_iff_witness :
    c6Pred c6Node.cells = false
    ∧ (filterAcceptsRow c6Pred c6Node = true ↔
        ∃ d ∈ FNode.strictDesc c6Node, c6Pred d.cells = true) := by
  exact ⟨rfl, treeFilter_scaffolding_iff c6Pred c6Node rfl⟩

/- ### ColumnFilterDataProxyModel: the cell override -/

/-- Python str() of a modelled value, as fed to the regexp. -/
def pyStr : PyVal → String
  | PyVal.none => "None"
  | PyVal.int n => toString n
  | PyVal.str s => s

/-- ColumnFilterDataProxyModel: the filter regexp (emptiness and its match
test), the filter key column and role, the per-role override table
(`self.__filterData`) and the wrapped model's cells (row, column, role ↦
value; this proxy accepts every row, so proxy and source coordinates
coincide). -/
structure ColumnFilterDataProxyModel where
  regexpEmpty : Bool
  matchesRe : String → Bool
  keyColumn : Int
  filterRole : Int
  filterData : List (Int × PyVal)
  source : Nat → Int → Int → PyVal

/-- ColumnFilterDataProxyModel.filterAcceptsIndex(index): true when the
regexp is empty or the cell is outside the filter key column; otherwise
false for a falsy cell value and else the regexp match on str(value) —
i.e. acceptance means the cell PASSES the filter. -/
def ColumnFilterDataProxyModel.filterAcceptsIndex (m : ColumnFilterDataProxyModel)
    (row : Nat) (col : Int) : Bool :=
  if m.regexpEmpty then true
  else if m.keyColumn ≥ 0 && col != m.keyColumn then true
  else
    let d := m.source row col m.filterRole
    if !(pyTruthy d) then false else m.matchesRe (pyStr d)

/-- ColumnFilterDataProxyModel.data(index, role): when the regexp is
nonempty and a truthy override is registered for the role and
filterAcceptsIndex(index) holds, return the override; otherwise the
underlying value.  The method performs no write: it is a pure read of the
proxy state. -/
def ColumnFilterDataProxyModel.data (m : ColumnFilterDataProxyModel)
    (row : Nat) (col : Int) (role : Int) : PyVal :=
  if !m.regexpEmpty then
    match alGet role m.filterData with
    | some ov =>
        if pyTruthy ov && m.filterAcceptsIndex row col then ov
        else m.source row col role
    | Option.none => m.source row col role
  else m.source row col role

/-- A concrete data proxy: nonempty regexp matching exactly "X" on key
column 0 at role 0, an override "DIM" registered for role 1, and a source
whose row 0 cell is "X" (passes) and row 1 cell is "Y" (fails), with
"real" stored for every cell of role 1. -/
def c7Model : ColumnFilterDataProxyModel :=
  { regexpEmpty := false,
    matchesRe := fun s => decide (s = "X"),
    keyColumn := 0,
    filterRole := 0,
    filterData := [(1, PyVal.str "DIM")],
    source := fun row col role =>
      if role = 0 then (if row = 0 then PyVal.str "X" else PyVal.str "Y")
      else if role = 1 ∧ col = 0 then PyVal.str "real"
      else PyVal.none }

/-- C7 counterexample: the override is substituted for the cell that
PASSES the filter predicate (row 0 matches "X" and reads back "DIM" at the
override role), while the failing row 1 — the kept-visible scaffolding row
— reads its real value "real", the opposite of the claimed polarity. -/
theorem dataProxy_override_polarity_counterexample :
    c7Model.filterAcceptsIndex 0 0 = true
    ∧ c7Model.data 0 0 1 = PyVal.str "DIM"
    ∧ c7Model.filterAcceptsIndex 1 0 = false
    ∧ c7Model.data 1 0 1 = PyVal.str "real" := by
  exact ⟨rfl, rfl, rfl, rfl⟩

/-- C7 amended: with a nonempty filter regexp and a truthy override
registered for the aspect, the override value is substituted exactly for
the cells that pass filterAcceptsIndex (the cells matching the filter, or
lying outside the filter key column) and every other cell reads its real
underlying value; reading through the filter is a pure read and never
writes to the underlying model. -/
theorem dataProxy_override_on_accepted_cells (m : ColumnFilterDataProxyModel)
    (row : Nat) (col : Int) (role : Int) (ov : PyVal)
    (hre : m.regexpEmpty = false) (hov : alGet role m.filterData = some ov)
    (htr : pyTruthy ov = true) :
    m.data row col role
      = (if m.filterAcceptsIndex row col then ov else m.source row col role) := by
  simp [ColumnFilterDataProxyModel.data, hre, hov, htr]

/-- Witness for C7 amended at the concrete proxy. -/
theorem dataProxy_override_on_accepted_cells_witness :
    (c7Model.regexpEmpty = false
      ∧ alGet 1 c7Model.filterData = some (PyVal.str "DIM")
      ∧ pyTruthy (PyVal.str "DIM") = true)
    ∧ c7Model.data 0 0 1
        = (if c7Model.filterAcceptsIndex 0 0 then PyVal.str "DIM"
           else c7Model.source 0 0 1) := by
  refine ⟨⟨rfl, rfl, rfl⟩, ?_⟩
  exact dataProxy_override_on_accepted_cells c7Model 0 0 1 (PyVal.str "DIM") rfl rfl rfl

end Kousen
